import Mathlib

/-!
Verification development for the `FileSelector` class of `src/file_selector.py`
(git-chat repository).  The Python code is shallowly embedded: Python strings
become Lean `String`s (the inputs in scope are ASCII), Python ints become `Nat`
(all quantities involved are non-negative), Python floats become `ℝ`, and the
single external effect used by `_score_files` (`os.path.getsize`, which may
raise) is passed in as an oracle `getSize : String → Option Nat` where `none`
models the raised exception.

Two places of the source have no deterministic order in CPython and are fixed
here to one concrete order:
* the set literal `tech_keywords` in `_extract_keywords` is iterated in source
  order (every result proved about it below is independent of that order), and
* `list(set(tech_files))` in `_get_technology_specific_files` is modelled as
  first-occurrence deduplication (`list_set` below); CPython's set iteration
  order is hash-seed dependent, which is noted where it matters.
-/

namespace FileSelector

/-- Python `str.lower()` (ASCII range, which covers every string in scope). -/
def pyLower (s : String) : String := String.mk (s.data.map Char.toLower)

/-- Characters after the last `/`, accumulator-style. -/
def afterLastSlash : List Char → List Char → List Char
  | [], acc => acc.reverse
  | c :: rest, acc => if c = '/' then afterLastSlash rest [] else afterLastSlash rest (c :: acc)

/-- Python `os.path.basename` for POSIX paths. -/
def pyBasename (p : String) : String := String.mk (afterLastSlash p.data [])

/-- Index of the last `'.'` in a character list (`str.rfind('.')`), if any. -/
def rfindDot (cs : List Char) : Option Nat :=
  (cs.enum.filterMap (fun pr => if pr.2 = '.' then some pr.1 else none)).getLast?

/-- Python `pathlib.PurePath(p).suffix`: the extension of the final path
component, including the dot; empty when the last dot is the first character of
the name or the name's last character. -/
def pySuffix (p : String) : String :=
  let name := (pyBasename p).data
  match rfindDot name with
  | some i => if 0 < i ∧ i < name.length - 1 then String.mk (name.drop i) else ""
  | none => ""

/-- Non-overlapping occurrence count, scanning left to right; fuel is the
length of the scanned list (each step consumes at least one character). -/
def pyCountAux : Nat → List Char → List Char → Nat
  | 0, _, _ => 0
  | _ + 1, [], _ => 0
  | fuel + 1, c :: rest, pat =>
    if pat.isPrefixOf (c :: rest) then 1 + pyCountAux fuel ((c :: rest).drop pat.length) pat
    else pyCountAux fuel rest pat

/-- Python `s.count(pat)` (for the empty pattern Python returns `len(s) + 1`). -/
def pyCount (s pat : String) : Nat :=
  if pat.data.isEmpty then s.data.length + 1 else pyCountAux s.data.length s.data pat.data

/-- Python `pat in s` (substring containment). -/
def pyContains (s pat : String) : Bool := pyCount s pat != 0

/-- Python `s.endswith(suffix)`. -/
def pyEndsWith (s suffix : String) : Bool := suffix.data.isSuffixOf s.data

/-- Helper for `pySplitWs`: split on whitespace runs, dropping empty pieces. -/
def pySplitWsAux : List Char → List Char → List String
  | [], acc => if acc.isEmpty then [] else [String.mk acc.reverse]
  | c :: rest, acc =>
    if c.isWhitespace then
      if acc.isEmpty then pySplitWsAux rest [] else String.mk acc.reverse :: pySplitWsAux rest []
    else pySplitWsAux rest (c :: acc)

/-- Python `str.split()` with no separator argument. -/
def pySplitWs (s : String) : List String := pySplitWsAux s.data []

/-- First-occurrence deduplication; models `list(set(xs))` for `tech_files`
(one fixed order for CPython's hash-dependent set iteration order). -/
def list_set (l : List String) : List String :=
  l.foldl (fun acc x => if acc.contains x then acc else acc ++ [x]) []

/-- `re.sub(r'[^\w\s]', ' ', query.lower())`: lowercase, then replace every
character that is neither alphanumeric, underscore nor whitespace by a space. -/
def clean_query (q : String) : String :=
  String.mk ((pyLower q).data.map
    (fun c => if c.isAlphanum || c = '_' || c.isWhitespace then c else ' '))

/-- The `stop_words` set literal of `_extract_keywords` (source order; repeated
entries of the literal kept — only membership is ever used). -/
def stop_words : List String :=
  ["a", "an", "the", "and", "or", "but", "if", "because", "as", "what",
   "which", "this", "that", "these", "those", "then", "just", "so", "than",
   "such", "both", "through", "about", "for", "is", "of", "while", "during",
   "to", "from", "in", "out", "on", "off", "over", "under", "again", "once",
   "here", "there", "when", "where", "why", "how", "all", "any", "both",
   "each", "few", "more", "most", "other", "some", "such", "no", "nor",
   "not", "only", "own", "same", "so", "than", "too", "very", "s", "t",
   "can", "will", "don", "should", "now", "using", "use", "used", "uses"]

/-- The `tech_keywords` set literal of `_extract_keywords` (source order). -/
def tech_keywords : List String :=
  ["react", "vue", "angular", "node", "express", "django", "flask",
   "python", "javascript", "typescript", "java", "kotlin", "swift",
   "go", "rust", "c#", "csharp", "dotnet", "php", "laravel", "ruby",
   "rails", "mongodb", "mongo", "mysql", "postgresql", "firebase", "aws",
   "azure", "gcp", "docker", "kubernetes", "graphql", "rest", "api",
   "redux", "vuex", "mobx", "tensorflow", "pytorch", "keras",
   "scikit", "pandas", "numpy", "matplotlib", "seaborn", "dask",
   "spark", "hadoop", "kafka", "rabbitmq", "redis", "elasticsearch",
   "webpack", "babel", "vite", "rollup", "jest", "mocha", "chai",
   "cypress", "selenium", "puppeteer", "storybook", "tailwind",
   "bootstrap", "material", "sass", "less", "styled", "emotion",
   "nextjs", "nuxt", "gatsby", "svelte", "flutter", "react-native",
   "ionic", "electron", "pwa", "webassembly", "wasm", "deno", "bun",
   "groq", "mistral", "llama", "claude", "gpt", "openai", "huggingface",
   "transformers", "bert", "llm", "rag", "langchain", "pinecone",
   "database", "db", "connect", "connection", "config", "configuration",
   "setup", "install", "env", "environment", "variable"]

/-- Related keywords appended when the query mentions mongo/mongodb. -/
def mongo_related : List String :=
  ["database", "db", "connect", "connection", "config", "nosql"]

/-- Related keywords appended when the query mentions laravel. -/
def laravel_related : List String :=
  ["php", "framework", "config", "env", "database", "db"]

/-- Related keywords appended when the query mentions connect/connection/setup. -/
def connect_related : List String :=
  ["config", "configuration", "env", "environment", "variable", "setting"]

/-- `if keyword not in keywords: keywords.append(keyword)`. -/
def addNewKeyword (acc : List String) (k : String) : List String :=
  if !acc.contains k then acc ++ [k] else acc

/-- `FileSelector._extract_keywords`. -/
def extract_keywords (query : String) : List String :=
  let q := clean_query query
  let words := pySplitWs q
  let keywords := words.filter (fun w => !stop_words.contains w && w.length > 2)
  let query_lower := pyLower q
  let keywords := tech_keywords.foldl
    (fun acc tech =>
      if pyContains query_lower tech && !acc.contains tech then acc ++ [tech] else acc)
    keywords
  let keywords :=
    if pyContains query_lower "mongo" || pyContains query_lower "mongodb" then
      mongo_related.foldl addNewKeyword keywords
    else keywords
  let keywords :=
    if pyContains query_lower "laravel" then
      laravel_related.foldl addNewKeyword keywords
    else keywords
  let keywords :=
    if pyContains query_lower "connect" || pyContains query_lower "connection"
        || pyContains query_lower "setup" then
      connect_related.foldl addNewKeyword keywords
    else keywords
  keywords

/-- `FileSelector._read_file`: the content store is never consulted; a fixed
placeholder string is returned for every path. -/
def read_file (file_path : String) : String :=
  "[File content will be fetched from MongoDB: " ++ file_path ++ "]"

/-- `code_extensions` in `_calculate_score`. -/
def code_extensions : List String :=
  [".py", ".js", ".jsx", ".ts", ".tsx", ".java", ".kt", ".swift",
   ".go", ".rs", ".cs", ".php", ".rb", ".c", ".cpp", ".h", ".hpp"]

/-- `config_extensions` in `_calculate_score`. -/
def config_extensions : List String :=
  [".json", ".yml", ".yaml", ".toml", ".ini", ".cfg", ".conf"]

/-- `doc_extensions` in `_calculate_score`. -/
def doc_extensions : List String :=
  [".md", ".txt", ".rst", ".adoc"]

/-- The dependency-manifest filenames receiving the +2.5 bonus. -/
def package_file_names : List String :=
  ["package.json", "requirements.txt", "pyproject.toml",
   "setup.py", "pom.xml", "build.gradle", "gemfile"]

/-- The entry-point filenames receiving the +2.0 bonus. -/
def entry_file_names : List String :=
  ["main.py", "index.js", "app.py", "server.js", "index.ts", "app.js"]

/-- Binary/media extensions skipped by `_score_files`. -/
def binary_extensions : List String :=
  [".png", ".jpg", ".jpeg", ".gif", ".ico", ".svg", ".woff",
   ".woff2", ".ttf", ".eot", ".mp3", ".mp4", ".avi", ".mov",
   ".pdf", ".zip", ".tar", ".gz", ".rar", ".7z", ".bin", ".exe",
   ".dll", ".so", ".dylib", ".class", ".pyc", ".pyd", ".pyo"]

/-- One keyword's contribution inside the loop of `_calculate_score`:
`+3.0` when the keyword occurs in the file name, plus `ln(count+1) * 1.5`
when the content contains the keyword at least once. -/
noncomputable def keyword_term (file_name content_lower : String) (keyword : String) : ℝ :=
  let kl := pyLower keyword
  let count := pyCount content_lower kl
  (if pyContains file_name kl then (3 : ℝ) else 0) +
  (if count > 0 then Real.log (count + 1) * 1.5 else 0)

/-- The extension-class contribution of `_calculate_score` (lines 253-258). -/
noncomputable def ext_score (ext : String) : ℝ :=
  if code_extensions.contains ext then (2 : ℝ)
  else if config_extensions.contains ext then 1.5
  else if doc_extensions.contains ext then 1 else 0

/-- The filename bonuses of `_calculate_score` (lines 261-271): readme,
dependency-manifest and entry-point bonuses. -/
noncomputable def name_score (file_name : String) : ℝ :=
  (if pyContains file_name "readme" then (3 : ℝ) else 0)
    + (if package_file_names.contains file_name then (2.5 : ℝ) else 0)
    + (if entry_file_names.contains file_name then (2 : ℝ) else 0)

/-- `FileSelector._calculate_score` (Python floats modelled as reals; the
sequential `score +=` accumulation is grouped into the extension part, the
filename part and the keyword part, equal in ℝ). -/
noncomputable def calculate_score (file_path content : String) (keywords : List String) : ℝ :=
  let content_lower := pyLower content
  let file_name := pyLower (pyBasename file_path)
  let ext := pyLower (pySuffix file_path)
  let score : ℝ :=
    ext_score ext + name_score file_name
      + ((keywords.map (keyword_term file_name content_lower)).sum)
  let size_factor := Real.log ((content.length : ℝ) + 1)
  if size_factor > 0 then score / Real.sqrt size_factor else score

/-- Stable descending insertion for `sortByScoreDesc`: an element is placed
before the first already-placed element whose score it reaches (already-placed
elements come later in the original list, so ties keep original order). -/
noncomputable def insertDesc (x : String × ℝ) : List (String × ℝ) → List (String × ℝ)
  | [] => [x]
  | y :: t => if x.2 ≥ y.2 then x :: y :: t else y :: insertDesc x t

/-- `sorted(scores, key=lambda x: x[1], reverse=True)`: Python's sort is
stable; ties keep original list order. -/
noncomputable def sortByScoreDesc (l : List (String × ℝ)) : List (String × ℝ) :=
  l.foldr insertDesc []

/-- `FileSelector._score_files`.  `getSize` is the `os.path.getsize` oracle
(composed with `os.path.join(self.repo_path, ·)`); `none` models the raised
exception swallowed by the `except` clause. -/
noncomputable def score_files (getSize : String → Option Nat)
    (files : List String) (keywords : List String) : List (String × ℝ) :=
  let scores := files.foldl
    (fun acc file_path =>
      match getSize file_path with
      | none => acc
      | some sz =>
        if sz > 1000000 then acc
        else
          let ext := pyLower (pySuffix file_path)
          if binary_extensions.contains ext then acc
          else
            let content := read_file file_path
            if content = "" then acc
            else acc ++ [(file_path, calculate_score file_path content keywords)])
    []
  sortByScoreDesc scores

/-- A path-matching pattern of `tech_patterns`: literal text, with a flag for
the regexes that are anchored with `$` (match at end of the path). -/
def re_search (pat : String × Bool) (s : String) : Bool :=
  if pat.2 then pyEndsWith s pat.1 else pyContains s pat.1

/-- `tech_patterns` of `_get_technology_specific_files` (source order; escaped
dots are literal, `$`-anchored regexes carry the `true` flag). -/
def tech_patterns : List (String × List (String × Bool)) :=
  [("react", [("react", false), ("jsx", false), ("tsx", false), ("component", false)]),
   ("vue", [("vue", false), ("vuex", false), ("nuxt", false)]),
   ("angular", [("angular", false), ("ng", false)]),
   ("node", [("node", false), ("express", false), ("server.js", false)]),
   ("python", [(".py", true), ("flask", false), ("django", false), ("requirements.txt", false)]),
   ("django", [("django", false), ("urls.py", false), ("views.py", false), ("models.py", false)]),
   ("flask", [("flask", false), ("app.py", false), ("routes.py", false)]),
   ("javascript", [(".js", true), (".jsx", true)]),
   ("typescript", [(".ts", true), (".tsx", true), ("tsconfig", false)]),
   ("groq", [("groq", false), ("llm", false), ("ai", false)]),
   ("mistral", [("mistral", false), ("llm", false), ("ai", false)]),
   ("llama", [("llama", false), ("llm", false), ("ai", false)]),
   ("claude", [("claude", false), ("anthropic", false), ("llm", false), ("ai", false)]),
   ("gpt", [("gpt", false), ("openai", false), ("llm", false), ("ai", false)]),
   ("langchain", [("langchain", false), ("llm", false), ("ai", false), ("rag", false)]),
   ("docker", [("docker", false), ("dockerfile", false), ("compose", false)]),
   ("kubernetes", [("k8s", false), ("kubernetes", false), ("helm", false)]),
   ("aws", [("aws", false), ("amazon", false), ("lambda", false), ("s3", false), ("ec2", false)]),
   ("database", [("db", false), ("database", false), ("sql", false), ("mongo", false),
                 ("postgres", false), (".env", false), ("config", false)]),
   ("api", [("api", false), ("rest", false), ("graphql", false), ("endpoint", false)]),
   ("auth", [("auth", false), ("login", false), ("jwt", false), ("oauth", false)]),
   ("test", [("test", false), ("spec", false), ("jest", false), ("mocha", false), ("cypress", false)]),
   ("mongodb", [("mongo", false), ("mongodb", false), ("nosql", false), ("database.php", false),
                (".env", false), ("config", false)]),
   ("laravel", [("laravel", false), (".env", false), ("config", false), ("database.php", false),
                ("composer.json", false)]),
   ("connect", [(".env", false), ("config", false), ("database", false), ("connection", false),
                ("setup", false)])]

/-- The condition at line 340 of the source deciding whether a technology's
patterns are applied. -/
def tech_query_cond (tech : String) (query_lower : String) : Bool :=
  pyContains query_lower tech
    || (tech == "mongodb" && pyContains query_lower "mongo")
    || (tech == "connect" && (pyContains query_lower "connect"
          || pyContains query_lower "connection" || pyContains query_lower "setup"))

/-- `important_config_files` of `_get_technology_specific_files`. -/
def important_config_files : List String :=
  [".env", ".env.example", "database.php", "config/database.php", "config/app.php",
   "composer.json"]

/-- `FileSelector._get_technology_specific_files`. -/
def get_technology_specific_files (query : String) (all_files : List String) : List String :=
  let query_lower := pyLower query
  let tech_files := tech_patterns.foldl
    (fun acc tp =>
      if tech_query_cond tp.1 query_lower then
        all_files.foldl
          (fun acc2 file_path =>
            let file_path_lower := pyLower file_path
            if tp.2.any (fun pat => re_search pat file_path_lower) then acc2 ++ [file_path]
            else acc2)
          acc
      else acc)
    []
  let tech_files := all_files.foldl
    (fun acc file_path =>
      let file_name := pyBasename file_path
      if important_config_files.contains file_name
          || important_config_files.any (fun cf => pyContains file_path cf) then
        acc ++ [file_path]
      else acc)
    tech_files
  list_set tech_files

/-- Selection state: the ordered `relevant_files` dict (insertion-ordered
association list with unique keys, as a Python dict) and `total_tokens`. -/
abbrev SelState := List (String × String) × Nat

/-- Python `file_path in relevant_files` (dict key membership). -/
def keyMem (m : List (String × String)) (k : String) : Bool :=
  (m.map Prod.fst).contains k

/-- Python `relevant_files[file_path] = content`: updates in place when the
key exists (keeping its insertion position), appends otherwise. -/
def pyDictInsert (m : List (String × String)) (k v : String) : List (String × String) :=
  if keyMem m k then m.map (fun pc => if pc.1 = k then (k, v) else pc) else m ++ [(k, v)]

/-- Loop body of the technology phase (lines 58-67): note the guard checks
`file_path in all_files`, not `file_path not in relevant_files`. -/
def tech_step (all_files : List String) (max_files max_tokens : Nat)
    (st : SelState) (file_path : String) : SelState :=
  if all_files.contains file_path ∧ st.1.length < max_files then
    let content := read_file file_path
    if content ≠ "" then
      let tokens := content.length / 4
      if st.2 + tokens ≤ max_tokens then (pyDictInsert st.1 file_path content, st.2 + tokens)
      else st
    else st
  else st

/-- Loop body of the score phase (lines 70-79); the score component of the
pair is only used for the (modelled-away) console output. -/
def score_step (max_files max_tokens : Nat) (st : SelState) (fs : String × ℝ) : SelState :=
  if ¬ keyMem st.1 fs.1 ∧ st.1.length < max_files then
    let content := read_file fs.1
    if content ≠ "" then
      let tokens := content.length / 4
      if st.2 + tokens ≤ max_tokens then (pyDictInsert st.1 fs.1 content, st.2 + tokens)
      else st
    else st
  else st

/-- Loop body of the pinned/important-files phase (lines 89-97). -/
def pinned_step (max_files max_tokens : Nat) (st : SelState) (file_path : String) : SelState :=
  if ¬ keyMem st.1 file_path ∧ st.1.length < max_files then
    let content := read_file file_path
    if content ≠ "" then
      let tokens := content.length / 4
      if st.2 + tokens ≤ max_tokens then (pyDictInsert st.1 file_path content, st.2 + tokens)
      else st
    else st
  else st

/-- The `important_files` filter of lines 82-87. -/
def important_files_filter (f : String) : Bool :=
  pyEndsWith (pyLower f) "readme.md" || pyLower f == "package.json"
    || pyLower f == "requirements.txt"

/-- `FileSelector.get_relevant_files`.  Returns the `relevant_files` ordered
dict together with `total_tokens`. -/
noncomputable def get_relevant_files (getSize : String → Option Nat) (query : String)
    (all_files : List String) (max_files : Nat) (max_tokens : Nat) : SelState :=
  let keywords := extract_keywords query
  let scored_files := score_files getSize all_files keywords
  let tech_files := get_technology_specific_files query all_files
  let st1 := tech_files.foldl (tech_step all_files max_files max_tokens) ([], 0)
  let st2 := scored_files.foldl (score_step max_files max_tokens) st1
  let important_files := all_files.filter important_files_filter
  let st3 := important_files.foldl (pinned_step max_files max_tokens) st2
  st3

/-- Sum of the per-file token estimates (`len(content) // 4`) over the entries
of a selection result. -/
def tokSum (m : List (String × String)) : Nat :=
  (m.map (fun pc => pc.2.length / 4)).sum

/-- Common shape of the three phase loop bodies: each call either leaves the
state unchanged, or—when a file slot is free and the token budget allows—
inserts the candidate's placeholder content and charges its estimate. -/
def StepOk {α : Type} (max_files max_tokens : Nat)
    (step : SelState → α → SelState) (key : α → String) : Prop :=
  ∀ st x, step st x = st ∨
    (st.1.length < max_files ∧
      st.2 + (read_file (key x)).length / 4 ≤ max_tokens ∧
      step st x = (pyDictInsert st.1 (key x) (read_file (key x)),
                   st.2 + (read_file (key x)).length / 4))

/-- Invariant maintained by every phase of `get_relevant_files`: entries hold
the placeholder produced by `_read_file`, the token accumulator dominates the
sum of entry estimates and respects the budget, and the entry count respects
the file budget. -/
def SelInv (max_files max_tokens : Nat) (st : SelState) : Prop :=
  (∀ pc ∈ st.1, pc.2 = read_file pc.1) ∧
    tokSum st.1 ≤ st.2 ∧ st.2 ≤ max_tokens ∧ st.1.length ≤ max_files

lemma read_file_length (fp : String) : (read_file fp).length = 45 + fp.length := by
  unfold read_file
  rw [String.length_append, String.length_append]
  have h1 : "[File content will be fetched from MongoDB: ".length = 44 := rfl
  have h2 : "]".length = 1 := rfl
  rw [h1, h2]
  omega

lemma read_file_ne_empty (fp : String) : read_file fp ≠ "" := by
  intro h
  have := congrArg String.length h
  rw [read_file_length] at this
  simp at this

lemma pyDictInsert_keys (m : List (String × String)) (k v : String) :
    (pyDictInsert m k v).map Prod.fst =
      if keyMem m k then m.map Prod.fst else m.map Prod.fst ++ [k] := by
  unfold pyDictInsert
  split_ifs with h
  · simp only [List.map_map]
    apply List.map_congr_left
    intro pc _
    by_cases hk : pc.1 = k <;> simp [hk]
  · simp

lemma pyDictInsert_length (m : List (String × String)) (k v : String) :
    (pyDictInsert m k v).length = if keyMem m k then m.length else m.length + 1 := by
  unfold pyDictInsert
  split_ifs with h <;> simp

lemma pyDictInsert_mem (m : List (String × String)) (k v : String) :
    ∀ pc ∈ pyDictInsert m k v, pc ∈ m ∨ pc = (k, v) := by
  unfold pyDictInsert
  split_ifs with h
  · intro pc hpc
    rcases List.mem_map.mp hpc with ⟨pc0, hpc0, heq⟩
    by_cases hk : pc0.1 = k
    · right
      rw [← heq]
      simp [hk]
    · left
      rw [← heq]
      simpa [hk] using hpc0
  · intro pc hpc
    rcases List.mem_append.mp hpc with h1 | h1
    · exact Or.inl h1
    · exact Or.inr (by simpa using h1)

lemma pyDictInsert_eq_of_entries (m : List (String × String)) (k : String)
    (hm : ∀ pc ∈ m, pc.2 = read_file pc.1) (hk : keyMem m k) :
    pyDictInsert m k (read_file k) = m := by
  unfold pyDictInsert
  rw [if_pos hk]
  have : ∀ pc ∈ m, (if pc.1 = k then (k, read_file k) else pc) = pc := by
    intro pc hpc
    by_cases h : pc.1 = k
    · have h2 := hm pc hpc
      rw [if_pos h, ← h, ← h2]
    · rw [if_neg h]
  rw [List.map_congr_left this]
  simp

lemma tech_step_spec (files : List String) (mf mt : Nat) :
    StepOk mf mt (tech_step files mf mt) id := by
  intro st x
  simp only [tech_step]
  split_ifs with h1 h2 h3
  · exact Or.inr ⟨h1.2, h3, rfl⟩
  · exact Or.inl rfl
  · exact Or.inl rfl
  · exact Or.inl rfl

lemma score_step_spec (mf mt : Nat) :
    StepOk mf mt (score_step mf mt) Prod.fst := by
  intro st x
  simp only [score_step]
  split_ifs with h1 h2 h3
  · exact Or.inr ⟨h1.2, h3, rfl⟩
  · exact Or.inl rfl
  · exact Or.inl rfl
  · exact Or.inl rfl

lemma pinned_step_spec (mf mt : Nat) :
    StepOk mf mt (pinned_step mf mt) id := by
  intro st x
  simp only [pinned_step]
  split_ifs with h1 h2 h3
  · exact Or.inr ⟨h1.2, h3, rfl⟩
  · exact Or.inl rfl
  · exact Or.inl rfl
  · exact Or.inl rfl

lemma stepOk_inv {α : Type} {mf mt : Nat} {step : SelState → α → SelState} {key : α → String}
    (h : StepOk mf mt step key) (st : SelState) (x : α)
    (hst : SelInv mf mt st) : SelInv mf mt (step st x) := by
  obtain ⟨hent, hsum, htot, hlen⟩ := hst
  rcases h st x with heq | ⟨hlt, htok, heq⟩
  · rw [heq]; exact ⟨hent, hsum, htot, hlen⟩
  · rw [heq]
    by_cases hk : keyMem st.1 (key x)
    · rw [pyDictInsert_eq_of_entries st.1 (key x) hent hk]
      refine ⟨hent, ?_, htok, hlen⟩
      show tokSum st.1 ≤ st.2 + (read_file (key x)).length / 4
      omega
    · constructor
      · intro pc hpc
        rcases pyDictInsert_mem st.1 (key x) (read_file (key x)) pc hpc with h1 | h1
        · exact hent pc h1
        · rw [h1]
      refine ⟨?_, htok, ?_⟩
      · have : pyDictInsert st.1 (key x) (read_file (key x)) = st.1 ++ [(key x, read_file (key x))] := by
          unfold pyDictInsert
          rw [if_neg hk]
        rw [this]
        unfold tokSum at hsum ⊢
        rw [List.map_append, List.sum_append]
        simp only [List.map_cons, List.map_nil, List.sum_cons, List.sum_nil]
        omega
      · rw [pyDictInsert_length, if_neg hk]
        omega

lemma foldOk_inv {α : Type} {mf mt : Nat} {step : SelState → α → SelState} {key : α → String}
    (h : StepOk mf mt step key) :
    ∀ (l : List α) (st : SelState), SelInv mf mt st → SelInv mf mt (l.foldl step st) := by
  intro l
  induction l with
  | nil => intro st hst; exact hst
  | cons x rest ih =>
    intro st hst
    exact ih (step st x) (stepOk_inv h st x hst)

lemma stepOk_len_mono {α : Type} {mf mt : Nat} {step : SelState → α → SelState} {key : α → String}
    (h : StepOk mf mt step key) (st : SelState) (x : α) :
    st.1.length ≤ (step st x).1.length := by
  rcases h st x with heq | ⟨_, _, heq⟩
  · rw [heq]
  · rw [heq]
    simp only
    rw [pyDictInsert_length]
    split_ifs <;> omega

lemma stepOk_total_mono {α : Type} {mf mt : Nat} {step : SelState → α → SelState} {key : α → String}
    (h : StepOk mf mt step key) (st : SelState) (x : α) :
    st.2 ≤ (step st x).2 := by
  rcases h st x with heq | ⟨_, _, heq⟩
  · rw [heq]
  · rw [heq]
    simp only
    omega

lemma stepOk_keys_mono {α : Type} {mf mt : Nat} {step : SelState → α → SelState} {key : α → String}
    (h : StepOk mf mt step key) (st : SelState) (x : α) (k : String)
    (hk : k ∈ st.1.map Prod.fst) : k ∈ (step st x).1.map Prod.fst := by
  rcases h st x with heq | ⟨_, _, heq⟩
  · rw [heq]; exact hk
  · rw [heq]
    simp only
    rw [pyDictInsert_keys]
    split_ifs
    · exact hk
    · exact List.mem_append.mpr (Or.inl hk)

lemma foldOk_len_mono {α : Type} {mf mt : Nat} {step : SelState → α → SelState} {key : α → String}
    (h : StepOk mf mt step key) :
    ∀ (l : List α) (st : SelState), st.1.length ≤ (l.foldl step st).1.length := by
  intro l
  induction l with
  | nil => intro st; exact Nat.le_refl _
  | cons x rest ih =>
    intro st
    exact Nat.le_trans (stepOk_len_mono h st x) (ih (step st x))

lemma foldOk_total_mono {α : Type} {mf mt : Nat} {step : SelState → α → SelState} {key : α → String}
    (h : StepOk mf mt step key) :
    ∀ (l : List α) (st : SelState), st.2 ≤ (l.foldl step st).2 := by
  intro l
  induction l with
  | nil => intro st; exact Nat.le_refl _
  | cons x rest ih =>
    intro st
    exact Nat.le_trans (stepOk_total_mono h st x) (ih (step st x))

lemma foldOk_keys_mono {α : Type} {mf mt : Nat} {step : SelState → α → SelState} {key : α → String}
    (h : StepOk mf mt step key) :
    ∀ (l : List α) (st : SelState) (k : String),
      k ∈ st.1.map Prod.fst → k ∈ (l.foldl step st).1.map Prod.fst := by
  intro l
  induction l with
  | nil => intro st k hk; exact hk
  | cons x rest ih =>
    intro st k hk
    exact ih (step st x) k (stepOk_keys_mono h st x k hk)

lemma foldOk_keys_sublist {α : Type} {mf mt : Nat} {step : SelState → α → SelState} {key : α → String}
    (h : StepOk mf mt step key) :
    ∀ (l : List α) (st : SelState) (l₀ : List String),
      List.Sublist (st.1.map Prod.fst) l₀ →
        List.Sublist ((l.foldl step st).1.map Prod.fst) (l₀ ++ l.map key) := by
  intro l
  induction l with
  | nil => intro st l₀ hst; simpa using hst
  | cons x rest ih =>
    intro st l₀ hst
    have hstep : List.Sublist ((step st x).1.map Prod.fst) (l₀ ++ [key x]) := by
      rcases h st x with heq | ⟨_, _, heq⟩
      · rw [heq]
        exact hst.trans (List.sublist_append_left l₀ [key x])
      · rw [heq]
        simp only
        rw [pyDictInsert_keys]
        split_ifs
        · exact hst.trans (List.sublist_append_left l₀ [key x])
        · exact List.Sublist.append hst (List.Sublist.refl [key x])
    have := ih (step st x) (l₀ ++ [key x]) hstep
    rw [List.append_assoc] at this
    simpa using this

lemma pinned_step_hit (mf mt : Nat) (st : SelState) (fp : String) :
    fp ∈ (pinned_step mf mt st fp).1.map Prod.fst ∨
      mf ≤ st.1.length ∨ mt < st.2 + (read_file fp).length / 4 := by
  by_cases hk : keyMem st.1 fp
  · left
    have hfp : fp ∈ st.1.map Prod.fst := by
      unfold keyMem at hk
      simpa using hk
    exact stepOk_keys_mono (pinned_step_spec mf mt) st fp fp hfp
  · by_cases hlen : st.1.length < mf
    · by_cases htok : st.2 + (read_file fp).length / 4 ≤ mt
      · left
        have heq : pinned_step mf mt st fp =
            (pyDictInsert st.1 fp (read_file fp), st.2 + (read_file fp).length / 4) := by
          simp only [pinned_step]
          rw [if_pos ⟨by simpa using hk, hlen⟩, if_pos (read_file_ne_empty fp), if_pos htok]
        rw [heq]
        simp only
        rw [pyDictInsert_keys, if_neg hk]
        simp
      · right; right; omega
    · right; left; omega

lemma pinned_fold_hit (mf mt : Nat) :
    ∀ (l : List String) (st : SelState) (fp : String), fp ∈ l →
      fp ∈ (l.foldl (pinned_step mf mt) st).1.map Prod.fst ∨
        mf ≤ (l.foldl (pinned_step mf mt) st).1.length ∨
        mt < (l.foldl (pinned_step mf mt) st).2 + (read_file fp).length / 4 := by
  intro l
  induction l with
  | nil => intro st fp h; cases h
  | cons x rest ih =>
    intro st fp h
    simp only [List.foldl_cons]
    rcases List.mem_cons.mp h with rfl | hmem
    · rcases pinned_step_hit mf mt st fp with hk | hlen | htok
      · exact Or.inl (foldOk_keys_mono (pinned_step_spec mf mt) rest _ fp hk)
      · right; left
        have h1 : st.1.length ≤ (pinned_step mf mt st fp).1.length :=
          stepOk_len_mono (pinned_step_spec mf mt) st fp
        have h2 := foldOk_len_mono (pinned_step_spec mf mt) rest (pinned_step mf mt st fp)
        omega
      · right; right
        have h1 : st.2 ≤ (pinned_step mf mt st fp).2 :=
          stepOk_total_mono (pinned_step_spec mf mt) st fp
        have h2 := foldOk_total_mono (pinned_step_spec mf mt) rest (pinned_step mf mt st fp)
        omega
    · exact ih (pinned_step mf mt st x) fp hmem

/-- `get_relevant_files` unfolded into its three phases. -/
lemma get_relevant_files_eq (gs : String → Option Nat) (q : String) (files : List String)
    (mf mt : Nat) :
    get_relevant_files gs q files mf mt =
      (files.filter important_files_filter).foldl (pinned_step mf mt)
        ((score_files gs files (extract_keywords q)).foldl (score_step mf mt)
          ((get_technology_specific_files q files).foldl (tech_step files mf mt) ([], 0))) := rfl

lemma get_relevant_files_inv (gs : String → Option Nat) (q : String) (files : List String)
    (mf mt : Nat) : SelInv mf mt (get_relevant_files gs q files mf mt) := by
  rw [get_relevant_files_eq]
  apply foldOk_inv (pinned_step_spec mf mt)
  apply foldOk_inv (score_step_spec mf mt)
  apply foldOk_inv (tech_step_spec files mf mt)
  refine ⟨?_, ?_, ?_, ?_⟩
  · intro pc hpc; cases hpc
  · simp [tokSum]
  · exact Nat.zero_le mt
  · exact Nat.zero_le mf

lemma addIf_nodup (cond : String → Bool) :
    ∀ (l : List String) (acc : List String), acc.Nodup →
      (l.foldl (fun acc k => if cond k && !acc.contains k then acc ++ [k] else acc) acc).Nodup := by
  intro l
  induction l with
  | nil => intro acc h; exact h
  | cons x rest ih =>
    intro acc h
    simp only [List.foldl_cons]
    apply ih
    split_ifs with hc
    · have hx : x ∉ acc := by
        intro hmem
        simp [hmem] at hc
      simp [List.nodup_append, h, hx]
    · exact h

lemma addIf_mem_mono (cond : String → Bool) :
    ∀ (l : List String) (acc : List String) (t : String), t ∈ acc →
      t ∈ l.foldl (fun acc k => if cond k && !acc.contains k then acc ++ [k] else acc) acc := by
  intro l
  induction l with
  | nil => intro acc t h; exact h
  | cons x rest ih =>
    intro acc t h
    simp only [List.foldl_cons]
    apply ih
    split_ifs
    · exact List.mem_append.mpr (Or.inl h)
    · exact h

lemma addIf_mem_of (cond : String → Bool) :
    ∀ (l : List String) (acc : List String) (t : String), t ∈ l → cond t = true →
      t ∈ l.foldl (fun acc k => if cond k && !acc.contains k then acc ++ [k] else acc) acc := by
  intro l
  induction l with
  | nil => intro acc t h; cases h
  | cons x rest ih =>
    intro acc t h hcond
    simp only [List.foldl_cons]
    rcases List.mem_cons.mp h with rfl | hmem
    · by_cases hin : acc.contains t
      · have hmem2 : t ∈ acc := by simpa using hin
        apply addIf_mem_mono
        split_ifs
        · exact List.mem_append.mpr (Or.inl hmem2)
        · exact hmem2
      · have hnotmem : t ∉ acc := fun hm => hin (by simpa using hm)
        apply addIf_mem_mono
        rw [if_pos (by simp [hcond, hnotmem])]
        simp
    · exact ih _ t hmem hcond

lemma addNew_nodup :
    ∀ (l : List String) (acc : List String), acc.Nodup →
      (l.foldl addNewKeyword acc).Nodup := by
  intro l
  induction l with
  | nil => intro acc h; exact h
  | cons x rest ih =>
    intro acc h
    simp only [List.foldl_cons]
    apply ih
    unfold addNewKeyword
    split_ifs with hc
    · have hx : x ∉ acc := by
        intro hmem
        simp [hmem] at hc
      simp [List.nodup_append, h, hx]
    · exact h

lemma addNew_mem_mono :
    ∀ (l : List String) (acc : List String) (t : String), t ∈ acc →
      t ∈ l.foldl addNewKeyword acc := by
  intro l
  induction l with
  | nil => intro acc t h; exact h
  | cons x rest ih =>
    intro acc t h
    simp only [List.foldl_cons]
    apply ih
    unfold addNewKeyword
    split_ifs
    · exact List.mem_append.mpr (Or.inl h)
    · exact h

lemma ite_addNew_nodup (c : Prop) [Decidable c] (l acc : List String) (hacc : acc.Nodup) :
    (if c then l.foldl addNewKeyword acc else acc).Nodup := by
  split_ifs
  · exact addNew_nodup l acc hacc
  · exact hacc

lemma ite_addNew_mem (c : Prop) [Decidable c] (l acc : List String) (t : String) (h : t ∈ acc) :
    t ∈ (if c then l.foldl addNewKeyword acc else acc) := by
  split_ifs
  · exact addNew_mem_mono l acc t h
  · exact h

/-- Claim C1: for every query, every candidate file list, and every
`maxFiles ≥ 0`, `maxTokens ≥ 0` (naturals), the mapping returned by
`get_relevant_files` contains at most `maxFiles` entries and the sum over its
values of `len(content) // 4` is at most `maxTokens`. -/
theorem c1_budget_bounds (gs : String → Option Nat) (q : String) (files : List String)
    (mf mt : Nat) :
    (get_relevant_files gs q files mf mt).1.length ≤ mf ∧
      tokSum (get_relevant_files gs q files mf mt).1 ≤ mt := by
  obtain ⟨_, hsum, htot, hlen⟩ := get_relevant_files_inv gs q files mf mt
  exact ⟨hlen, Nat.le_trans hsum htot⟩

/-- Claim C2: every path included by `get_relevant_files` is stored with
exactly the fixed placeholder string produced by `_read_file`, which never
returns the file's real content and never returns `None`; hence every per-file
token estimate is the placeholder's `length // 4`, independent of the external
store. -/
theorem c2_placeholder_content (gs : String → Option Nat) (q : String) (files : List String)
    (mf mt : Nat) :
    ∀ pc ∈ (get_relevant_files gs q files mf mt).1,
      pc.2 = "[File content will be fetched from MongoDB: " ++ pc.1 ++ "]" := by
  obtain ⟨hent, _, _, _⟩ := get_relevant_files_inv gs q files mf mt
  intro pc hpc
  exact (hent pc hpc).trans rfl

theorem c2_placeholder_content_witness :
    (("README.md", "[File content will be fetched from MongoDB: README.md]")
        ∈ (get_relevant_files (fun _ => none) "" ["README.md"] 5 1000).1) ∧
      ("README.md", "[File content will be fetched from MongoDB: README.md]").2
        = "[File content will be fetched from MongoDB: " ++ "README.md" ++ "]" :=
  ⟨by decide, c2_placeholder_content (fun _ => none) "" ["README.md"] 5 1000 _ (by decide)⟩

/-- Claim C3: selection is deterministic: two calls of `get_relevant_files`
with identical query, file list, `maxFiles`, `maxTokens` and an unchanged
size/content store return identical ordered results (the embedding is a pure
function of these inputs; the method reads no other state, and `_read_file`
ignores the store entirely). -/
theorem c3_deterministic (gs₁ gs₂ : String → Option Nat) (q₁ q₂ : String)
    (files₁ files₂ : List String) (mf₁ mf₂ mt₁ mt₂ : Nat)
    (hgs : ∀ p, gs₁ p = gs₂ p) (hq : q₁ = q₂) (hfiles : files₁ = files₂)
    (hmf : mf₁ = mf₂) (hmt : mt₁ = mt₂) :
    get_relevant_files gs₁ q₁ files₁ mf₁ mt₁ = get_relevant_files gs₂ q₂ files₂ mf₂ mt₂ := by
  have h : gs₁ = gs₂ := funext hgs
  rw [h, hq, hfiles, hmf, hmt]

theorem c3_deterministic_witness :
    get_relevant_files (fun _ => none) "query" ["README.md"] 3 50
      = get_relevant_files (fun _ => none) "query" ["README.md"] 3 50 :=
  c3_deterministic (fun _ => none) (fun _ => none) "query" "query" ["README.md"] ["README.md"]
    3 3 50 50 (fun _ => rfl) rfl rfl rfl rfl

/-- Claim C4 counterexample: for query `"react vue"` and
`all_files = ["thing.vue", "x.jsx"]`, both paths are technology matches and
both are included during the technology phase, but the result lists `x.jsx`
before `thing.vue` — the reverse of their order in `all_files` (the phase
iterates the deduplicated match list, whose order follows the `tech_patterns`
table, not `all_files`). -/
theorem c4_counterexample :
    "thing.vue" ∈ get_technology_specific_files "react vue" ["thing.vue", "x.jsx"] ∧
      "x.jsx" ∈ get_technology_specific_files "react vue" ["thing.vue", "x.jsx"] ∧
      ((get_technology_specific_files "react vue" ["thing.vue", "x.jsx"]).foldl
          (tech_step ["thing.vue", "x.jsx"] 10 1000) ([], 0)).1.map Prod.fst
        = ["x.jsx", "thing.vue"] ∧
      (get_relevant_files (fun _ => none) "react vue" ["thing.vue", "x.jsx"] 10 1000).1.map
          Prod.fst
        = ["x.jsx", "thing.vue"] ∧
      (["thing.vue", "x.jsx"] : List String).indexOf "thing.vue"
        < (["thing.vue", "x.jsx"] : List String).indexOf "x.jsx" ∧
      (["x.jsx", "thing.vue"] : List String).indexOf "x.jsx"
        < (["x.jsx", "thing.vue"] : List String).indexOf "thing.vue" := by
  decide

/-- Claim C4 amended: the technology phase consumes the deduplicated
technology-match list in that list's own order (modelled as first-occurrence
order of the accumulated matches, standing in for CPython's hash-dependent
`list(set(...))` order): the keys inserted by the technology phase form a
sublist of the output of `_get_technology_specific_files`, which need not
follow the `all_files` order. -/
theorem c4_amended_tech_phase_order (q : String) (files : List String) (mf mt : Nat) :
    List.Sublist
      (((get_technology_specific_files q files).foldl
          (tech_step files mf mt) ([], 0)).1.map Prod.fst)
      (get_technology_specific_files q files) := by
  have h := foldOk_keys_sublist (tech_step_spec files mf mt)
    (get_technology_specific_files q files) ([], 0) [] (by simp)
  simpa using h

/-- Claim C5 counterexample: `_extract_keywords` does not deduplicate the base
token list — for the query `"python python"` the returned keyword list contains
`python` twice. -/
theorem c5_counterexample : ¬ (extract_keywords "python python").Nodup := by decide

/-- Claim C5 amended: only the technology/related-term augmentation guards
against duplicates; the filtered base tokens are appended as-is.  Whenever the
filtered base token list is duplicate-free, the full keyword list returned by
`_extract_keywords` is duplicate-free. -/
theorem c5_amended_nodup (q : String)
    (h : ((pySplitWs (clean_query q)).filter
        (fun w => !stop_words.contains w && w.length > 2)).Nodup) :
    (extract_keywords q).Nodup := by
  simp only [extract_keywords]
  apply ite_addNew_nodup
  apply ite_addNew_nodup
  apply ite_addNew_nodup
  exact addIf_nodup (fun k => pyContains (pyLower (clean_query q)) k) tech_keywords _ h

theorem c5_amended_nodup_witness :
    ((pySplitWs (clean_query "mongodb")).filter
        (fun w => !stop_words.contains w && w.length > 2)).Nodup ∧
      (extract_keywords "mongodb").Nodup :=
  ⟨by decide, c5_amended_nodup "mongodb" (by decide)⟩

/-- Claim C6 counterexample: with `all_files = ["README.md"]`, `maxFiles = 5`
and `maxTokens = 12`, budget remains when the pinned phase runs (no entries,
zero tokens used of twelve), yet `README.md` (estimate 13) is not included. -/
theorem c6_counterexample :
    "README.md" ∈ (["README.md"] : List String) ∧ (1 : Nat) ≤ 5 ∧
      (get_relevant_files (fun _ => none) "" ["README.md"] 5 12).1.length < 5 ∧
      (get_relevant_files (fun _ => none) "" ["README.md"] 5 12).2 < 12 ∧
      "README.md" ∉ (get_relevant_files (fun _ => none) "" ["README.md"] 5 12).1.map Prod.fst := by
  decide

/-- Claim C6 amended: a file named `README.md` present in `all_files` is in the
returned mapping whenever the returned mapping has fewer than `maxFiles`
entries and the returned token total plus `README.md`'s placeholder estimate
still fits in `maxTokens` (i.e. enough — not just any — budget remains). -/
theorem c6_amended_readme_pinned (gs : String → Option Nat) (q : String) (files : List String)
    (mf mt : Nat) (h1 : "README.md" ∈ files)
    (h2 : (get_relevant_files gs q files mf mt).1.length < mf)
    (h3 : (get_relevant_files gs q files mf mt).2 + (read_file "README.md").length / 4 ≤ mt) :
    "README.md" ∈ (get_relevant_files gs q files mf mt).1.map Prod.fst := by
  have hfilter : "README.md" ∈ files.filter important_files_filter :=
    List.mem_filter.mpr ⟨h1, by decide⟩
  rw [get_relevant_files_eq] at h2 h3 ⊢
  rcases pinned_fold_hit mf mt (files.filter important_files_filter) _ "README.md" hfilter
    with hk | hlen | htok
  · exact hk
  · omega
  · omega

theorem c6_amended_readme_pinned_witness :
    "README.md" ∈ (["README.md"] : List String) ∧
      (get_relevant_files (fun _ => none) "" ["README.md"] 5 1000).1.length < 5 ∧
      (get_relevant_files (fun _ => none) "" ["README.md"] 5 1000).2
          + (read_file "README.md").length / 4 ≤ 1000 ∧
      "README.md" ∈ (get_relevant_files (fun _ => none) "" ["README.md"] 5 1000).1.map Prod.fst :=
  ⟨by decide, by decide, by decide,
    c6_amended_readme_pinned (fun _ => none) "" ["README.md"] 5 1000
      (by decide) (by decide) (by decide)⟩

/-- Claim C7: in every phase, a candidate whose token estimate would push the
running total over `maxTokens` leaves the phase state unchanged (skipped, never
truncated); the folds keep traversing later candidates, so a later smaller
file can still be included (final conjunct: a 22-token README is skipped under
a 20-token budget and the later 13-token `README.md` is still included); every
included file's own estimate fits `maxTokens`; the embedding is a total
function, so no input raises. -/
theorem c7_overbudget_skipped :
    (∀ (files : List String) (mf mt : Nat) (st : SelState) (fp : String),
        mt < st.2 + (read_file fp).length / 4 → tech_step files mf mt st fp = st) ∧
      (∀ (mf mt : Nat) (st : SelState) (fs : String × ℝ),
        mt < st.2 + (read_file fs.1).length / 4 → score_step mf mt st fs = st) ∧
      (∀ (mf mt : Nat) (st : SelState) (fp : String),
        mt < st.2 + (read_file fp).length / 4 → pinned_step mf mt st fp = st) ∧
      (∀ (gs : String → Option Nat) (q : String) (files : List String) (mf mt : Nat),
        ∀ pc ∈ (get_relevant_files gs q files mf mt).1, pc.2.length / 4 ≤ mt) ∧
      (get_relevant_files (fun _ => none) ""
          ["docs/subdirectory/with/a/long/name/README.md", "README.md"] 5 20).1.map Prod.fst
        = ["README.md"] := by
  refine ⟨?_, ?_, ?_, ?_, by decide⟩
  · intro files mf mt st fp h
    simp only [tech_step]
    split_ifs with h1 h2 h3
    · exact absurd h3 (by omega)
    · rfl
    · rfl
    · rfl
  · intro mf mt st fs h
    simp only [score_step]
    split_ifs with h1 h2 h3
    · exact absurd h3 (by omega)
    · rfl
    · rfl
    · rfl
  · intro mf mt st fp h
    simp only [pinned_step]
    split_ifs with h1 h2 h3
    · exact absurd h3 (by omega)
    · rfl
    · rfl
    · rfl
  · intro gs q files mf mt pc hpc
    obtain ⟨_, hsum, htot, _⟩ := get_relevant_files_inv gs q files mf mt
    have h1 : pc.2.length / 4 ≤ tokSum (get_relevant_files gs q files mf mt).1 := by
      unfold tokSum
      exact List.single_le_sum (fun x _ => Nat.zero_le x) _ (List.mem_map_of_mem _ hpc)
    omega

theorem c7_overbudget_skipped_witness :
    tech_step ["a.md"] 5 10 ([], 100) "a.md" = ([], 100) ∧
      score_step 5 10 ([], 100) ("a.md", 0) = ([], 100) ∧
      pinned_step 5 10 ([], 100) "a.md" = ([], 100) ∧
      ("README.md", read_file "README.md").2.length / 4 ≤ 1000 :=
  ⟨c7_overbudget_skipped.1 ["a.md"] 5 10 ([], 100) "a.md" (by decide),
    c7_overbudget_skipped.2.1 5 10 ([], 100) ("a.md", 0) (by decide),
    c7_overbudget_skipped.2.2.1 5 10 ([], 100) "a.md" (by decide),
    c7_overbudget_skipped.2.2.2.1 (fun _ => none) "" ["README.md"] 5 1000
      ("README.md", read_file "README.md") (by decide)⟩

/-- Claim C8 counterexample: the technology scan runs on the
punctuation-replaced query, not the original: `c#` is a technology term of the
dictionary and a substring of the original lowercased query `"use c#"`, yet it
is absent from the extracted keywords (the `#` has been replaced by a space
before the scan). -/
theorem c8_counterexample :
    "c#" ∈ tech_keywords ∧ pyContains (pyLower "use c#") "c#" = true ∧
      "c#" ∉ extract_keywords "use c#" := by
  decide

/-- Claim C8 amended: every technology term of the fixed dictionary that
occurs as a substring of the lowercased, punctuation-replaced query is present
in the keyword list returned by `_extract_keywords`. -/
theorem c8_amended_tech_in_cleaned (q t : String) (ht : t ∈ tech_keywords)
    (hc : pyContains (pyLower (clean_query q)) t = true) :
    t ∈ extract_keywords q := by
  simp only [extract_keywords]
  apply ite_addNew_mem
  apply ite_addNew_mem
  apply ite_addNew_mem
  exact addIf_mem_of (fun k => pyContains (pyLower (clean_query q)) k) tech_keywords _ t ht hc

theorem c8_amended_tech_in_cleaned_witness :
    "django" ∈ tech_keywords ∧
      pyContains (pyLower (clean_query "Django!")) "django" = true ∧
      "django" ∈ extract_keywords "Django!" :=
  ⟨by decide, by decide, c8_amended_tech_in_cleaned "Django!" "django" (by decide) (by decide)⟩

lemma doc_ext_not_code_config (e : String) (h : doc_extensions.contains e = true) :
    code_extensions.contains e = false ∧ config_extensions.contains e = false := by
  have hm : e ∈ doc_extensions := by simpa using h
  simp only [doc_extensions, List.mem_cons, List.not_mem_nil, or_false] at hm
  rcases hm with rfl | rfl | rfl | rfl <;> exact ⟨by decide, by decide⟩

lemma keyword_term_mono (fn cl₁ cl₂ k : String)
    (h : pyCount cl₁ (pyLower k) ≤ pyCount cl₂ (pyLower k)) :
    keyword_term fn cl₁ k ≤ keyword_term fn cl₂ k := by
  simp only [keyword_term]
  refine add_le_add_left ?_ _
  by_cases h₁ : pyCount cl₁ (pyLower k) > 0
  · have h₂ : pyCount cl₂ (pyLower k) > 0 := lt_of_lt_of_le h₁ h
    rw [if_pos h₁, if_pos h₂]
    have hlog : Real.log (pyCount cl₁ (pyLower k) + 1)
        ≤ Real.log (pyCount cl₂ (pyLower k) + 1) := by
      gcongr
    linarith
  · rw [if_neg h₁]
    split_ifs with h₂
    · have hnn : (0:ℝ) ≤ Real.log (pyCount cl₂ (pyLower k) + 1) := by
        apply Real.log_nonneg
        have h3 : (0:ℝ) ≤ (pyCount cl₂ (pyLower k) : ℝ) := Nat.cast_nonneg _
        linarith
      linarith
    · exact le_refl 0

/-- Claim C9 counterexample: `requirements.go` (code extension) and
`requirements.txt` (doc extension) have identical content, identical filenames
except for the extension and equal keyword occurrence counts (empty keyword
set), yet the code-extension file scores strictly LESS than the doc-extension
file: the `.txt` file collects the +2.5 dependency-manifest bonus, which
outweighs the 2.0 vs 1.0 extension base. -/
theorem c9_counterexample :
    code_extensions.contains (pyLower (pySuffix "requirements.go")) = true ∧
      doc_extensions.contains (pyLower (pySuffix "requirements.txt")) = true ∧
      calculate_score "requirements.go" "hello" []
        < calculate_score "requirements.txt" "hello" [] := by
  refine ⟨by decide, by decide, ?_⟩
  have h1 : calculate_score "requirements.go" "hello" [] = 2 / Real.sqrt (Real.log 6) := by
    simp only [calculate_score, List.map_nil, List.sum_nil]
    norm_num [ext_score, name_score,
      show pyLower (pySuffix "requirements.go") = ".go" from rfl,
      show pyLower (pyBasename "requirements.go") = "requirements.go" from rfl,
      show (".go" ∈ code_extensions) from by decide,
      show pyContains "requirements.go" "readme" = false from rfl,
      show ("requirements.go" ∉ package_file_names) from by decide,
      show ("requirements.go" ∉ entry_file_names) from by decide,
      show ("hello" : String).length = 5 from rfl,
      Real.log_pos]
  have h2 : calculate_score "requirements.txt" "hello" [] = 3.5 / Real.sqrt (Real.log 6) := by
    simp only [calculate_score, List.map_nil, List.sum_nil]
    norm_num [ext_score, name_score,
      show pyLower (pySuffix "requirements.txt") = ".txt" from rfl,
      show pyLower (pyBasename "requirements.txt") = "requirements.txt" from rfl,
      show (".txt" ∉ code_extensions) from by decide,
      show (".txt" ∉ config_extensions) from by decide,
      show (".txt" ∈ doc_extensions) from by decide,
      show pyContains "requirements.txt" "readme" = false from rfl,
      show ("requirements.txt" ∈ package_file_names) from by decide,
      show ("requirements.txt" ∉ entry_file_names) from by decide,
      show ("hello" : String).length = 5 from rfl,
      Real.log_pos]
  rw [h1, h2]
  have hs : 0 < Real.sqrt (Real.log 6) := Real.sqrt_pos.mpr (Real.log_pos (by norm_num))
  gcongr
  norm_num

/-- Claim C9 amended: a code-extension file scores at least a doc-extension
file with identical content and equal keyword occurrence counts PROVIDED the
filename-derived bonuses also coincide: same readme/manifest/entry-point
bonuses (`name_score`) and the same keyword-in-filename hits.  (Without that
proviso the claim fails, e.g. when only the doc-extension filename is a
dependency manifest.) -/
theorem c9_amended_code_ge_doc (p₁ p₂ content : String) (kws : List String)
    (hc : code_extensions.contains (pyLower (pySuffix p₁)) = true)
    (hd : doc_extensions.contains (pyLower (pySuffix p₂)) = true)
    (hn : name_score (pyLower (pyBasename p₁)) = name_score (pyLower (pyBasename p₂)))
    (hk : ∀ k ∈ kws, pyContains (pyLower (pyBasename p₁)) (pyLower k)
        = pyContains (pyLower (pyBasename p₂)) (pyLower k)) :
    calculate_score p₂ content kws ≤ calculate_score p₁ content kws := by
  obtain ⟨hd1, hd2⟩ := doc_ext_not_code_config _ hd
  simp only [calculate_score]
  have hext1 : ext_score (pyLower (pySuffix p₁)) = 2 := by
    simp only [ext_score]
    rw [if_pos hc]
  have hext2 : ext_score (pyLower (pySuffix p₂)) = 1 := by
    simp only [ext_score]
    rw [if_neg (by simpa using hd1), if_neg (by simpa using hd2), if_pos hd]
  have hsum : (kws.map (keyword_term (pyLower (pyBasename p₂)) (pyLower content))).sum
      = (kws.map (keyword_term (pyLower (pyBasename p₁)) (pyLower content))).sum := by
    refine congrArg List.sum (List.map_congr_left ?_)
    intro k hkk
    simp only [keyword_term]
    rw [hk k hkk]
  rw [hext1, hext2, hsum, ← hn]
  split_ifs with hpos
  · gcongr
    linarith
  · linarith

theorem c9_amended_code_ge_doc_witness :
    code_extensions.contains (pyLower (pySuffix "app.rb")) = true ∧
      doc_extensions.contains (pyLower (pySuffix "app.md")) = true ∧
      calculate_score "app.md" "hello" ["ruby"] ≤ calculate_score "app.rb" "hello" ["ruby"] :=
  ⟨by decide, by decide,
    c9_amended_code_ge_doc "app.rb" "app.md" "hello" ["ruby"] (by decide) (by decide)
      (by
        have e1 : pyLower (pyBasename "app.rb") = "app.rb" := rfl
        have e2 : pyLower (pyBasename "app.md") = "app.md" := rfl
        rw [e1, e2]
        simp [name_score,
          show pyContains "app.rb" "readme" = false from rfl,
          show ("app.rb" ∉ package_file_names) from by decide,
          show ("app.rb" ∉ entry_file_names) from by decide,
          show pyContains "app.md" "readme" = false from rfl,
          show ("app.md" ∉ package_file_names) from by decide,
          show ("app.md" ∉ entry_file_names) from by decide])
      (by decide)⟩

/-- Claim C10: for a fixed path and keyword list, if the content changes so
that no keyword's occurrence count decreases (one strictly increasing) while
the content length stays the same, the score does not decrease: the keyword
terms are monotone in the counts (`ln(count+1) * 1.5` with `ln` monotone) and
the size normalisation depends only on the unchanged length. -/
theorem c10_keyword_monotone (fp c₁ c₂ : String) (kws : List String)
    (hlen : c₁.length = c₂.length)
    (hmono : ∀ k ∈ kws, pyCount (pyLower c₁) (pyLower k) ≤ pyCount (pyLower c₂) (pyLower k))
    (_hstrict : ∃ k ∈ kws, pyCount (pyLower c₁) (pyLower k) < pyCount (pyLower c₂) (pyLower k)) :
    calculate_score fp c₁ kws ≤ calculate_score fp c₂ kws := by
  simp only [calculate_score]
  rw [hlen]
  have hsum : (kws.map (keyword_term (pyLower (pyBasename fp)) (pyLower c₁))).sum
      ≤ (kws.map (keyword_term (pyLower (pyBasename fp)) (pyLower c₂))).sum :=
    List.sum_le_sum (fun k hkk => keyword_term_mono _ _ _ _ (hmono k hkk))
  split_ifs with hpos
  · gcongr
  · linarith

theorem c10_keyword_monotone_witness :
    ("abcde" : String).length = ("mongo" : String).length ∧
      (∀ k ∈ (["mongo"] : List String),
        pyCount (pyLower "abcde") (pyLower k) ≤ pyCount (pyLower "mongo") (pyLower k)) ∧
      (∃ k ∈ (["mongo"] : List String),
        pyCount (pyLower "abcde") (pyLower k) < pyCount (pyLower "mongo") (pyLower k)) ∧
      calculate_score "a.py" "abcde" ["mongo"] ≤ calculate_score "a.py" "mongo" ["mongo"] :=
  ⟨by decide, by decide, by decide,
    c10_keyword_monotone "a.py" "abcde" "mongo" ["mongo"] (by decide) (by decide) (by decide)⟩

end FileSelector
